import Mathlib

/-!
Shallow embedding of the authentication and signing subsystem of the
pusher-deno repository: `src/token.ts` (Token), `src/webhook.ts` (WebHook),
the validators and `authenticate` / `trigger` entry points of
`src/pusher.ts`, and the signed-query-string builder.

The HMAC-SHA256 primitive comes from an external library
(`chiefbiiko/hmac`); it is abstracted as a function parameter
`hmac : String → String → String` taking the secret and the message and
returning the hex digest.  Every theorem below is universally quantified
over it, so nothing depends on properties of the concrete hash.
-/

namespace PusherSpec

/-! ## Constant-time comparison (`util.secureCompare`)

`util.js` is not part of the corpus; the comparison is modelled from the
spec.  The model returns the comparison result together with the number of
byte-comparison steps performed, so that the timing contract can be stated
structurally. -/

/-- Modelled from the spec: `util.secureCompare` (`util.js` is absent from
the corpus).  Fixed-time byte comparison over the full length of the longer
input: the accumulator ors in the xor of the two code points at each
position (a position present on one side only contributes a nonzero
mismatch marker); the second component counts comparison steps.  The result
is "equal" iff the final accumulator is zero. -/
def ctCompareAux : List Nat → List Nat → Nat → Nat × Nat
  | [], [], acc => (acc, 0)
  | a :: as, [], acc =>
      let r := ctCompareAux as [] (acc ||| (a + 1))
      (r.1, r.2 + 1)
  | [], b :: bs, acc =>
      let r := ctCompareAux [] bs (acc ||| (b + 1))
      (r.1, r.2 + 1)
  | a :: as, b :: bs, acc =>
      let r := ctCompareAux as bs (acc ||| (a ^^^ b))
      (r.1, r.2 + 1)

/-- Modelled from the spec: `util.secureCompare(a, b)` returns true iff the
two strings are equal, via a fixed-time pass over the longer input. -/
def secureCompare (a b : String) : Bool :=
  (ctCompareAux (a.data.map Char.toNat) (b.data.map Char.toNat) 0).1 == 0

/-- Number of byte-comparison steps the constant-time comparison performs. -/
def secureCompareSteps (a b : String) : Nat :=
  (ctCompareAux (a.data.map Char.toNat) (b.data.map Char.toNat) 0).2

/-! ## Token (`src/token.ts`) -/

/-- Embeds `Token` from `src/token.ts`: an app key / secret pair. -/
structure Token where
  key : String
  secret : String
deriving DecidableEq, Repr

/-- Embeds `Token.sign`: hex HMAC-SHA256 of the string under the token's secret
(`hmac("sha256", this.secret, string, "utf8", "hex")`); the HMAC primitive
is the abstracted external library function. -/
def Token.sign (hmac : String → String → String) (t : Token) (s : String) : String :=
  hmac t.secret s

/-- Embeds `Token.verify`: `util.secureCompare(this.sign(string), signature)`. -/
def Token.verify (hmac : String → String → String) (t : Token)
    (s signature : String) : Bool :=
  secureCompare (t.sign hmac s) signature

/-! ### Lemmas about the comparison -/

theorem nat_or_eq_zero (x y : Nat) : x ||| y = 0 ↔ x = 0 ∧ y = 0 := by
  constructor
  · intro h
    have hb : ∀ i, x.testBit i = false ∧ y.testBit i = false := by
      intro i
      have hb' := congrArg (fun n => Nat.testBit n i) h
      simpa using hb'
    exact ⟨Nat.eq_of_testBit_eq fun i => by simp [(hb i).1],
           Nat.eq_of_testBit_eq fun i => by simp [(hb i).2]⟩
  · rintro ⟨rfl, rfl⟩
    rfl

theorem ctCompareAux_nil_right (as : List Nat) (acc : Nat) :
    (ctCompareAux as [] acc).1 = 0 ↔ acc = 0 ∧ as = [] := by
  induction as generalizing acc with
  | nil => simp [ctCompareAux]
  | cons a as ih =>
    simp only [ctCompareAux]
    rw [ih]
    simp [nat_or_eq_zero]

theorem ctCompareAux_nil_left (bs : List Nat) (acc : Nat) :
    (ctCompareAux [] bs acc).1 = 0 ↔ acc = 0 ∧ bs = [] := by
  induction bs generalizing acc with
  | nil => simp [ctCompareAux]
  | cons b bs ih =>
    simp only [ctCompareAux]
    rw [ih]
    simp [nat_or_eq_zero]

theorem ctCompareAux_fst_eq_zero (as bs : List Nat) (acc : Nat) :
    (ctCompareAux as bs acc).1 = 0 ↔ acc = 0 ∧ as = bs := by
  induction as generalizing bs acc with
  | nil =>
    cases bs with
    | nil => simp [ctCompareAux]
    | cons b bs =>
      simp only [ctCompareAux]
      rw [ctCompareAux_nil_left]
      simp [nat_or_eq_zero]
  | cons a as ih =>
    cases bs with
    | nil =>
      simp only [ctCompareAux]
      rw [ctCompareAux_nil_right]
      simp [nat_or_eq_zero]
    | cons b bs =>
      simp only [ctCompareAux]
      rw [ih]
      rw [nat_or_eq_zero]
      constructor
      · rintro ⟨⟨h0, hx⟩, hl⟩
        exact ⟨h0, by rw [Nat.xor_eq_zero.mp hx, hl]⟩
      · rintro ⟨h0, hl⟩
        injection hl with h1 h2
        subst h1
        subst h2
        exact ⟨⟨h0, by simp⟩, rfl⟩

theorem ctCompareAux_nil_right_snd (as : List Nat) (acc : Nat) :
    (ctCompareAux as [] acc).2 = as.length := by
  induction as generalizing acc with
  | nil => simp [ctCompareAux]
  | cons a as ih => simp [ctCompareAux, ih]

theorem ctCompareAux_snd (as bs : List Nat) (acc : Nat) :
    (ctCompareAux as bs acc).2 = max as.length bs.length := by
  induction as generalizing bs acc with
  | nil =>
    induction bs generalizing acc with
    | nil => simp [ctCompareAux]
    | cons b bs ihb =>
      simp only [ctCompareAux, List.length_cons, List.length_nil]
      rw [ihb]
      simp only [List.length_nil, List.length_cons]
      omega
  | cons a as ih =>
    cases bs with
    | nil =>
      simp only [ctCompareAux, List.length_cons, List.length_nil]
      rw [ctCompareAux_nil_right_snd]
      omega
    | cons b bs =>
      simp only [ctCompareAux, List.length_cons]
      rw [ih]
      omega

theorem char_toNat_injective : Function.Injective Char.toNat := by
  intro c d h
  have h2 := congrArg Char.ofNat h
  simpa using h2

theorem secureCompare_eq_true_iff (a b : String) :
    secureCompare a b = true ↔ a = b := by
  unfold secureCompare
  rw [beq_iff_eq, ctCompareAux_fst_eq_zero]
  constructor
  · rintro ⟨-, h⟩
    exact String.ext (List.map_injective_iff.mpr char_toNat_injective h)
  · rintro rfl
    exact ⟨rfl, rfl⟩

theorem verify_sign_self (hmac : String → String → String) (t : Token)
    (m : String) : t.verify hmac m (t.sign hmac m) = true := by
  unfold Token.verify
  rw [secureCompare_eq_true_iff]

/-- C1: for every hmac primitive, token and strings, `Token.verify`
returns true exactly when the supplied signature equals `Token.sign` of
the message. -/
theorem verify_true_iff_eq_sign (hmac : String → String → String)
    (t : Token) (m s : String) :
    t.verify hmac m s = true ↔ s = t.sign hmac m := by
  unfold Token.verify
  rw [secureCompare_eq_true_iff]
  exact eq_comm

/-! ## JSON values and a model of the ECMAScript builtin `JSON.parse`

`webhook.ts` calls the JavaScript builtin `JSON.parse`; the builtin is
external to the repository, so it is modelled here by a recursive-descent
parser for the JSON grammar (ECMA-404): optional whitespace around values,
strings with the standard escapes, numbers without leading zeros, `true`,
`false`, `null`, arrays and objects.  `JSON.parse` rejects trailing
non-whitespace. -/

/-- JSON values; numbers keep their raw lexeme (their numeric value is
never inspected by the code under verification). -/
inductive Json where
  | null
  | bool (b : Bool)
  | num (lexeme : String)
  | str (s : String)
  | arr (elems : List Json)
  | obj (fields : List (String × Json))
deriving Repr

/-- The four JSON whitespace characters. -/
def isJsonWs (c : Char) : Bool :=
  c == ' ' || c == '\t' || c == '\n' || c == '\r'

def skipWs (l : List Char) : List Char := l.dropWhile isJsonWs

def isHexDigitChar (c : Char) : Bool :=
  c.isDigit || ('a' ≤ c ∧ c ≤ 'f') || ('A' ≤ c ∧ c ≤ 'F')

def hexVal (c : Char) : Nat :=
  if c.isDigit then c.toNat - '0'.toNat
  else if 'a' ≤ c ∧ c ≤ 'f' then c.toNat - 'a'.toNat + 10
  else c.toNat - 'A'.toNat + 10

/-- JSON string body (after the opening quote): plain characters above
`0x1F`, the standard escapes, and `\uXXXX`; returns the decoded string and
the remaining input after the closing quote. -/
def parseStringAux : List Char → List Char → Option (String × List Char)
  | acc, '"' :: rest => some (⟨acc.reverse⟩, rest)
  | acc, '\\' :: '"' :: rest => parseStringAux ('"' :: acc) rest
  | acc, '\\' :: '\\' :: rest => parseStringAux ('\\' :: acc) rest
  | acc, '\\' :: '/' :: rest => parseStringAux ('/' :: acc) rest
  | acc, '\\' :: 'b' :: rest => parseStringAux (Char.ofNat 8 :: acc) rest
  | acc, '\\' :: 'f' :: rest => parseStringAux (Char.ofNat 12 :: acc) rest
  | acc, '\\' :: 'n' :: rest => parseStringAux ('\n' :: acc) rest
  | acc, '\\' :: 'r' :: rest => parseStringAux ('\r' :: acc) rest
  | acc, '\\' :: 't' :: rest => parseStringAux ('\t' :: acc) rest
  | acc, '\\' :: 'u' :: h1 :: h2 :: h3 :: h4 :: rest =>
      if isHexDigitChar h1 && isHexDigitChar h2 && isHexDigitChar h3 && isHexDigitChar h4 then
        parseStringAux
          (Char.ofNat (((hexVal h1 * 16 + hexVal h2) * 16 + hexVal h3) * 16 + hexVal h4) :: acc)
          rest
      else none
  | _, '\\' :: _ => none
  | acc, c :: rest =>
      if c.toNat < 32 then none else parseStringAux (c :: acc) rest
  | _, [] => none

/-- Optional fraction part `.digits` of a JSON number. -/
def parseFrac : List Char → Option (List Char × List Char)
  | '.' :: r =>
      let ds := r.takeWhile Char.isDigit
      if ds.isEmpty then none
      else some ('.' :: ds, r.dropWhile Char.isDigit)
  | l => some ([], l)

/-- Optional exponent part `[eE][+-]?digits` of a JSON number. -/
def parseExp : List Char → Option (List Char × List Char)
  | c :: r =>
      if c == 'e' || c == 'E' then
        let p : List Char × List Char :=
          match r with
          | '+' :: r2 => (['+'], r2)
          | '-' :: r2 => (['-'], r2)
          | _ => ([], r)
        let ds := p.2.takeWhile Char.isDigit
        if ds.isEmpty then none
        else some (c :: (p.1 ++ ds), p.2.dropWhile Char.isDigit)
      else some ([], c :: r)
  | [] => some ([], [])

/-- JSON number: `-?(0|[1-9][0-9]*)(\.[0-9]+)?([eE][+-]?[0-9]+)?`;
returns the lexeme and the remaining input. -/
def parseNumber (l : List Char) : Option (String × List Char) :=
  let p : List Char × List Char :=
    match l with
    | '-' :: r => (['-'], r)
    | _ => ([], l)
  let intPart := p.2.takeWhile Char.isDigit
  let r1 := p.2.dropWhile Char.isDigit
  if intPart.isEmpty then none
  else if intPart.length > 1 && intPart.headI == '0' then none
  else
    match parseFrac r1 with
    | none => none
    | some (fracCs, r2) =>
      match parseExp r2 with
      | none => none
      | some (expCs, r3) => some (⟨p.1 ++ intPart ++ fracCs ++ expCs⟩, r3)

mutual

/-- JSON value, fuel-bounded recursive descent. -/
def parseValue : Nat → List Char → Option (Json × List Char)
  | 0, _ => none
  | fuel + 1, l =>
    match skipWs l with
    | 'n' :: 'u' :: 'l' :: 'l' :: rest => some (.null, rest)
    | 't' :: 'r' :: 'u' :: 'e' :: rest => some (.bool true, rest)
    | 'f' :: 'a' :: 'l' :: 's' :: 'e' :: rest => some (.bool false, rest)
    | '"' :: rest =>
      match parseStringAux [] rest with
      | some (s, r) => some (.str s, r)
      | none => none
    | '[' :: rest =>
      match skipWs rest with
      | ']' :: r => some (.arr [], r)
      | l2 => parseElems fuel l2 []
    | '\x7b' :: rest =>
      match skipWs rest with
      | '\x7d' :: r => some (.obj [], r)
      | l2 => parseMembers fuel l2 []
    | c :: rest =>
      if c == '-' || c.isDigit then
        match parseNumber (c :: rest) with
        | some (s, r) => some (.num s, r)
        | none => none
      else none
    | [] => none

/-- Comma-separated array elements up to the closing bracket. -/
def parseElems : Nat → List Char → List Json → Option (Json × List Char)
  | 0, _, _ => none
  | fuel + 1, l, acc =>
    match parseValue fuel l with
    | none => none
    | some (v, r) =>
      match skipWs r with
      | ',' :: r2 => parseElems fuel r2 (v :: acc)
      | ']' :: r2 => some (.arr (v :: acc).reverse, r2)
      | _ => none

/-- Comma-separated `"key": value` object members up to the closing brace. -/
def parseMembers : Nat → List Char → List (String × Json) →
    Option (Json × List Char)
  | 0, _, _ => none
  | fuel + 1, l, acc =>
    match skipWs l with
    | '"' :: rest =>
      match parseStringAux [] rest with
      | none => none
      | some (k, r) =>
        match skipWs r with
        | ':' :: r2 =>
          match parseValue fuel r2 with
          | none => none
          | some (v, r3) =>
            match skipWs r3 with
            | ',' :: r4 => parseMembers fuel r4 ((k, v) :: acc)
            | '\x7d' :: r4 => some (.obj ((k, v) :: acc).reverse, r4)
            | _ => none
        | _ => none
    | _ => none

end

/-- Model of `JSON.parse`: parse one value, then allow only trailing
whitespace.  `some` is a successful parse, `none` a thrown `SyntaxError`. -/
def jsonParse (s : String) : Option Json :=
  match parseValue (2 * s.data.length + 4) s.data with
  | some (v, rest) => if (skipWs rest).isEmpty then some v else none
  | none => none

/-- JS property read `value.field` as used by `getEvents` / `getTime`:
reading a property of `null` throws a TypeError (outer `none`); on any
other JSON value the result is the object field (with the last duplicate
winning, as with `JSON.parse`) or JS `undefined`, modelled as the inner
`Option`. -/
def Json.getField : Json → String → Option (Option Json)
  | .null, _ => none
  | .obj fs, k => some (((fs.filter (fun p => p.1 == k)).getLast?).map Prod.snd)
  | _, _ => some none

/-! ## WebHook (`src/webhook.ts`) -/

/-- The request handed to the `WebHook` constructor: HTTP headers with
lower-case keys, and the raw body. -/
structure WebHookRequest where
  headers : List (String × String)
  rawBody : String

/-- JS `request.headers[name]`: the header value, or `undefined` (`none`)
when the header is absent. -/
def getHeader (request : WebHookRequest) (name : String) : Option String :=
  request.headers.lookup name

/-- The fields a `WebHook` instance holds after construction. -/
structure WebHook where
  token : Token
  key : Option String
  signature : Option String
  contentType : Option String
  body : String
  data : Option Json

/-- Embeds the constructor `new WebHook(token, request)`: reads the claimed key, signature and
content type from the headers, stores the raw body, and — only when the
content type is valid — tries to parse the body as JSON, recording a parse
failure silently (`this.data` stays `undefined`, modelled as `none`).
A missing header is JS `undefined`, modelled as `none`. -/
def WebHook.make (token : Token) (request : WebHookRequest) : WebHook :=
  let ct := getHeader request "content-type"
  { token := token
    key := getHeader request "x-pusher-key"
    signature := getHeader request "x-pusher-signature"
    contentType := ct
    body := request.rawBody
    data :=
      if ct == some "application/json" then jsonParse request.rawBody
      else none }

/-- Embeds `isContentTypeValid`: `this.contentType === "application/json"`. -/
def WebHook.isContentTypeValid (w : WebHook) : Bool :=
  w.contentType == some "application/json"

/-- Embeds `isBodyValid`: `this.data !== undefined`. -/
def WebHook.isBodyValid (w : WebHook) : Bool :=
  w.data.isSome

/-- One candidate check of `isValid`'s loop:
`this.key == token.key && token.verify(this.body, this.signature)`.
When the `x-pusher-signature` header is missing the claimed signature is
JS `undefined`, which the string comparison never reports equal to the
computed hex digest, so a missing signature never verifies. -/
def WebHook.candidateMatches (hmac : String → String → String)
    (w : WebHook) (t : Token) : Bool :=
  w.key == some t.key &&
    (match w.signature with
     | some s => t.verify hmac w.body s
     | none => false)

/-- The `for (const i in tokens) { ... return true } return false` loop of
`isValid`: return on the first matching candidate. -/
def firstMatch (hmac : String → String → String) (w : WebHook) :
    List Token → Bool
  | [] => false
  | t :: ts => if w.candidateMatches hmac t then true else firstMatch hmac w ts

/-- The optional `extraTokens` argument of `isValid`: absent, a bare token,
or an array of tokens. -/
inductive ExtraTokens where
  | noArg
  | single (t : Token)
  | list (ts : List Token)

/-- Embeds `WebHook.isValid(extraTokens)`: false immediately when the body is
invalid; otherwise `extraTokens || []` normalizes an absent argument to
`[]`, a bare token is wrapped into an array (`[extraTokens]`), the primary
token is prepended (`[this.token].concat(extraTokens)`), and the
candidates are tried in order. -/
def WebHook.isValidArg (hmac : String → String → String)
    (w : WebHook) (extraTokens : ExtraTokens) : Bool :=
  if !w.isBodyValid then false
  else
    let extra : List Token :=
      match extraTokens with
      | .noArg => []
      | .single t => [t]
      | .list ts => ts
    firstMatch hmac w (w.token :: extra)

/-- Convenience: `isValid` applied to an array argument (the general form used below). -/
def WebHook.isValid (hmac : String → String → String)
    (w : WebHook) (extraTokens : List Token) : Bool :=
  w.isValidArg hmac (.list extraTokens)

/-- Embeds `WebHookError` from `src/errors.ts`: the structured fields its
constructor stores (besides `name` and `stack`). -/
structure WebHookError where
  message : String
  contentType : Option String
  body : String
  signature : Option String
deriving DecidableEq, Repr

/-- Errors observable from the accessors: the repository's `WebHookError`,
or a JavaScript `TypeError` from reading a property of `null`. -/
inductive JsError where
  | webhook (e : WebHookError)
  | typeError
deriving DecidableEq, Repr

/-- Embeds `getData`: throws `WebHookError("Invalid WebHook body", contentType,
body, signature)` when the body is invalid, otherwise returns the parsed
data (`this.data`, which is defined exactly when `isBodyValid`). -/
def WebHook.getData (w : WebHook) : Except WebHookError Json :=
  match w.data with
  | some d => .ok d
  | none => .error ⟨"Invalid WebHook body", w.contentType, w.body, w.signature⟩

/-- Embeds `getEvents`: `this.getData().events`. -/
def WebHook.getEvents (w : WebHook) : Except JsError (Option Json) :=
  match w.getData with
  | .error e => .error (.webhook e)
  | .ok d =>
    match d.getField "events" with
    | none => .error .typeError
    | some v => .ok v

/-- Embeds `getTime`: `new Date(this.getData().time_ms)`; the `Date` constructor
is an external total builtin, so the model returns the `time_ms` field
value that is handed to it. -/
def WebHook.getTime (w : WebHook) : Except JsError (Option Json) :=
  match w.getData with
  | .error e => .error (.webhook e)
  | .ok d =>
    match d.getField "time_ms" with
    | none => .error .typeError
    | some v => .ok v

/-! ### Lemmas about the webhook -/

theorem firstMatch_eq_any (hmac : String → String → String)
    (w : WebHook) (ts : List Token) :
    firstMatch hmac w ts = ts.any (w.candidateMatches hmac) := by
  induction ts with
  | nil => rfl
  | cons t ts ih =>
    simp only [firstMatch, List.any_cons, ih]
    cases w.candidateMatches hmac t <;> simp

theorem candidateMatches_iff (hmac : String → String → String)
    (w : WebHook) (t : Token) :
    w.candidateMatches hmac t = true ↔
      (w.key = some t.key ∧
        ∃ s, w.signature = some s ∧ t.verify hmac w.body s = true) := by
  unfold WebHook.candidateMatches
  cases hs : w.signature with
  | none => simp
  | some s => simp

/-- C2: `isValid(extraTokens)` is true exactly when the body is valid and
some candidate token — the primary one or one of the extras — has the
claimed key and verifies the raw body against the claimed signature; in
particular it is false when no candidate matches. -/
theorem isValid_iff_exists_candidate (hmac : String → String → String)
    (w : WebHook) (extra : List Token) :
    w.isValid hmac extra = true ↔
      (w.isBodyValid = true ∧ ∃ t ∈ w.token :: extra,
        w.key = some t.key ∧
          ∃ s, w.signature = some s ∧ t.verify hmac w.body s = true) := by
  unfold WebHook.isValid WebHook.isValidArg
  cases hb : w.isBodyValid with
  | false => simp
  | true =>
    simp only [Bool.not_true, Bool.false_eq_true, if_false, true_and]
    rw [firstMatch_eq_any, List.any_eq_true]
    constructor
    · rintro ⟨t, ht, hm⟩
      exact ⟨t, ht, (candidateMatches_iff hmac w t).mp hm⟩
    · rintro ⟨t, ht, hm⟩
      exact ⟨t, ht, (candidateMatches_iff hmac w t).mpr hm⟩

/-- C3 (amended): `isBodyValid` is true exactly when the request's content
type is `application/json` AND the raw body parses as JSON; the
constructor does not even attempt the parse for any other content type. -/
theorem isBodyValid_iff (t : Token) (request : WebHookRequest) :
    (WebHook.make t request).isBodyValid = true ↔
      (getHeader request "content-type" = some "application/json" ∧
        (jsonParse request.rawBody).isSome = true) := by
  unfold WebHook.make WebHook.isBodyValid
  by_cases h : getHeader request "content-type" = some "application/json" <;>
    simp [h]

/-- C3 counterexample: the body `"[]"` is syntactically valid JSON, yet a
webhook whose content type is `text/plain` has `isBodyValid() = false` —
refuting "isBodyValid() returns true if and only if the raw body parses as
syntactically valid JSON". -/
theorem isBodyValid_content_type_cex :
    (jsonParse "[]").isSome = true ∧
    (WebHook.make ⟨"key", "secret"⟩
        ⟨[("content-type", "text/plain")], "[]"⟩).isBodyValid = false :=
  ⟨rfl, rfl⟩

/-- C4: `getData` returns the parsed body whenever `isBodyValid` (even when
`isValid` is false, e.g. for a wrong or missing signature), and otherwise
fails with a `WebHookError` carrying the content type, body and claimed
signature; `getEvents` and `getTime` fail with that same error exactly
when `getData` does. -/
theorem getData_events_time_spec (hmac : String → String → String)
    (w : WebHook) :
    (w.isBodyValid = true → ∃ d, w.data = some d ∧ w.getData = .ok d)
    ∧ (w.isBodyValid = false →
        w.getData =
          .error ⟨"Invalid WebHook body", w.contentType, w.body, w.signature⟩)
    ∧ (w.isValid hmac [] = false → w.isBodyValid = true →
        ∃ d, w.data = some d ∧ w.getData = .ok d)
    ∧ (∀ e, w.getEvents = .error (.webhook e) ↔ w.getData = .error e)
    ∧ (∀ e, w.getTime = .error (.webhook e) ↔ w.getData = .error e) := by
  have hok : w.isBodyValid = true → ∃ d, w.data = some d ∧ w.getData = .ok d := by
    intro h
    unfold WebHook.isBodyValid at h
    cases hd : w.data with
    | none => rw [hd] at h; simp at h
    | some d => exact ⟨d, rfl, by unfold WebHook.getData; rw [hd]⟩
  refine ⟨hok, ?_, fun _ => hok, ?_, ?_⟩
  · intro h
    unfold WebHook.isBodyValid at h
    cases hd : w.data with
    | none => unfold WebHook.getData; rw [hd]
    | some d => rw [hd] at h; simp at h
  · intro e
    unfold WebHook.getEvents
    cases hd : w.getData with
    | error e2 => simp
    | ok d =>
      cases hf : d.getField "events" with
      | none => simp [hd, hf]
      | some v => simp [hd, hf]
  · intro e
    unfold WebHook.getTime
    cases hd : w.getData with
    | error e2 => simp
    | ok d =>
      cases hf : d.getField "time_ms" with
      | none => simp [hd, hf]
      | some v => simp [hd, hf]

/-- C4 witness: a webhook with content type `text/plain` has an invalid
body, and `getData` fails with the diagnostic `WebHookError`. -/
theorem getData_events_time_spec_witness :
    (WebHook.make ⟨"key", "secret"⟩
        ⟨[("content-type", "text/plain")], "x"⟩).getData =
      .error ⟨"Invalid WebHook body", some "text/plain", "x", none⟩ :=
  (getData_events_time_spec (fun _ _ => "") _).2.1 rfl

theorem perm_any_eq {α : Type} (p : α → Bool) :
    ∀ {l1 l2 : List α}, l1.Perm l2 → l1.any p = l2.any p := by
  intro l1 l2 h
  induction h with
  | nil => rfl
  | cons x _ ih => simp [ih]
  | swap x y l => cases hx : p x <;> cases hy : p y <;> simp [hx, hy]
  | trans _ _ ih1 ih2 => rw [ih1, ih2]

/-- C9: permuting the list of extra tokens never changes the boolean
outcome of `isValid`. -/
theorem isValid_perm_invariant (hmac : String → String → String)
    (w : WebHook) (extra extra2 : List Token) (h : extra.Perm extra2) :
    w.isValid hmac extra = w.isValid hmac extra2 := by
  unfold WebHook.isValid WebHook.isValidArg
  cases w.isBodyValid with
  | false => simp
  | true =>
    simp only [Bool.not_true, Bool.false_eq_true, if_false]
    rw [firstMatch_eq_any, firstMatch_eq_any]
    exact perm_any_eq _ (h.cons w.token)

/-- C9 witness: swapping two concrete extra tokens leaves `isValid`
unchanged. -/
theorem isValid_perm_invariant_witness :
    (WebHook.make ⟨"key", "secret"⟩
        ⟨[("content-type", "application/json")], "1"⟩).isValid
        (fun _ _ => "sig") [⟨"a", "b"⟩, ⟨"c", "d"⟩] =
    (WebHook.make ⟨"key", "secret"⟩
        ⟨[("content-type", "application/json")], "1"⟩).isValid
        (fun _ _ => "sig") [⟨"c", "d"⟩, ⟨"a", "b"⟩] :=
  isValid_perm_invariant _ _ _ _ (List.Perm.swap _ _ _)

/-- C10: passing a bare token behaves as the one-element array, and
passing no argument behaves as the empty array. -/
theorem isValid_arg_normalization (hmac : String → String → String)
    (w : WebHook) (t : Token) :
    w.isValidArg hmac (.single t) = w.isValidArg hmac (.list [t])
    ∧ w.isValidArg hmac .noArg = w.isValidArg hmac (.list []) :=
  ⟨rfl, rfl⟩

/-! ## Input validators and entry points (`src/pusher.ts`) -/

/-- JS `string.length`: the number of UTF-16 code units (characters above
`0xFFFF` count twice). -/
def jsLength (s : String) : Nat :=
  s.data.foldl (fun n c => n + (if c.toNat ≥ 65536 then 2 else 1)) 0

/-- The characters admitted by the channel-name character class
`[A-Za-z0-9_\-=@,.;]`. -/
def channelCharOk (c : Char) : Bool :=
  c.isAlphanum || c == '_' || c == '-' || c == '=' || c == '@' ||
    c == ',' || c == '.' || c == ';'

/-- Embeds `validateChannel`: throws "Invalid channel name" for an empty name or
one containing a character outside the class (the regex
`/[^A-Za-z0-9_\-=@,.;]/` matches), then "Channel name too long" for names
longer than 200 characters. -/
def validateChannel (channel : String) : Except String Unit :=
  if channel == "" || channel.data.any (fun c => !channelCharOk c) then
    .error ("Invalid channel name: \x27" ++ channel ++ "\x27")
  else if jsLength channel > 200 then
    .error ("Channel name too long: \x27" ++ channel ++ "\x27")
  else .ok ()

/-- The regex `^\d+\.\d+$` on the characters of a string: one or more
digits, a dot, one or more digits, spanning the whole input. -/
def matchSocketId (l : List Char) : Bool :=
  let ds := l.takeWhile Char.isDigit
  match l.dropWhile Char.isDigit with
  | c :: rest => c == '.' && !ds.isEmpty && !rest.isEmpty && rest.all Char.isDigit
  | [] => false

/-- Embeds `validateSocketId`: throws unless the socket id is a non-empty string
matching `^\d+\.\d+$`. -/
def validateSocketId (socketId : String) : Except String Unit :=
  if socketId == "" || !matchSocketId socketId.data then
    .error ("Invalid socket id: \x27" ++ socketId ++ "\x27")
  else .ok ()

/-- Socket auth response shape:
`{ auth: "<key>:<signature>", channel_data?: "<json-string>" }`. -/
structure AuthResponse where
  auth : String
  channel_data : Option String
deriving DecidableEq, Repr

/-- Modelled from the spec: `auth.getSocketSignature` (`auth.ts` is absent
from the corpus).  Signs `socketId + ":" + channel`, extended with
`":" + D` when channel data `D` (already serialized to JSON by the
external serializer) is present, and returns
`{ auth: key + ":" + signature, channel_data?: D }`. -/
def getSocketSignature (hmac : String → String → String) (t : Token)
    (channel socketId : String) (channelData : Option String) : AuthResponse :=
  let stringToSign :=
    match channelData with
    | none => socketId ++ ":" ++ channel
    | some d => socketId ++ ":" ++ channel ++ ":" ++ d
  { auth := t.key ++ ":" ++ t.sign hmac stringToSign
    channel_data := channelData }

/-- Embeds `Pusher.authenticate(socketId, channel, data)`: validates the socket
id, then the channel, and only then signs. -/
def authenticate (hmac : String → String → String) (t : Token)
    (socketId channel : String) (channelData : Option String) :
    Except String AuthResponse :=
  match validateSocketId socketId with
  | .error e => .error e
  | .ok _ =>
    match validateChannel channel with
    | .error e => .error e
    | .ok _ => .ok (getSocketSignature hmac t channel socketId channelData)

/-- The `channels` argument of `trigger`: a single channel or an array. -/
inductive ChannelsArg where
  | single (c : String)
  | list (cs : List String)

/-- Embeds `if (!(channels instanceof Array)) channels = [channels]`. -/
def normalizeChannels : ChannelsArg → List String
  | .single c => [c]
  | .list cs => cs

/-- The per-channel validation loop of `trigger`. -/
def validateChannels : List String → Except String Unit
  | [] => .ok ()
  | c :: cs =>
    match validateChannel c with
    | .error e => .error e
    | .ok _ => validateChannels cs

/-- The `if (socketId) { validateSocketId(socketId); }` guard of
`trigger`: a JS falsy socket id — absent, or the empty string — skips
validation entirely. -/
def sidCheckOf (socketId : Option String) : Except String Unit :=
  match socketId with
  | some sid => if sid == "" then .ok () else validateSocketId sid
  | none => .ok ()

/-- Embeds `Pusher.trigger(channels, event, data, socketId)` up to the dispatch
to `events.trigger` (the HTTP layer, an external collaborator): the
socket-id guard, a single channel wrapped into an array, then the
event-name length, the channel count and each channel checked in order.
`.ok ()` means the call reaches the dispatch. -/
def trigger (channels : ChannelsArg) (event : String)
    (socketId : Option String) : Except String Unit :=
  match sidCheckOf socketId with
  | .error e => .error e
  | .ok _ =>
    if jsLength event > 200 then
      .error ("Too long event name: \x27" ++ event ++ "\x27")
    else if (normalizeChannels channels).length > 100 then
      .error "Can\x27t trigger a message to more than 100 channels"
    else validateChannels (normalizeChannels channels)

/-! ## Signed query string (`requests.createSignedQueryString`)

`requests.ts` is absent from the corpus; the builder is modelled from the
spec (section 4.2).  The MD5 primitive, like HMAC, is abstracted as a
function parameter; it is only consulted when a body is present. -/

/-- Hex digit character (upper case, as `encodeURIComponent` emits). -/
def hexDigitChar (n : Nat) : Char :=
  if n < 10 then Char.ofNat ('0'.toNat + n) else Char.ofNat ('A'.toNat + n - 10)

/-- The UTF-8 bytes of a character. -/
def utf8Bytes (c : Char) : List Nat :=
  let n := c.toNat
  if n < 128 then [n]
  else if n < 2048 then [192 + n / 64, 128 + n % 64]
  else if n < 65536 then [224 + n / 4096, 128 + n / 64 % 64, 128 + n % 64]
  else [240 + n / 262144, 128 + n / 4096 % 64, 128 + n / 64 % 64, 128 + n % 64]

/-- Characters kept verbatim by the percent-encoding. -/
def isUnreserved (c : Char) : Bool :=
  c.isAlphanum || c == '-' || c == '_' || c == '.' || c == '~'

/-- Modelled from the spec: consistent percent-encoding over UTF-8 bytes;
space becomes `%20`, never `+`. -/
def percentEncode (s : String) : String :=
  ⟨s.data.foldr
    (fun c acc =>
      if isUnreserved c then c :: acc
      else (utf8Bytes c).foldr
        (fun b acc2 => '%' :: hexDigitChar (b / 16) :: hexDigitChar (b % 16) :: acc2)
        acc)
    []⟩

/-- Decimal digits of a natural number (structural recursion on a fuel
argument, so that concrete instances reduce inside the kernel). -/
def natToDecAux : Nat → Nat → List Char → List Char
  | 0, _, acc => acc
  | fuel + 1, n, acc =>
      if n < 10 then Char.ofNat (48 + n) :: acc
      else natToDecAux fuel (n / 10) (Char.ofNat (48 + n % 10) :: acc)

/-- Decimal string of a natural number. -/
def natToDec (n : Nat) : String :=
  ⟨natToDecAux (n + 1) n []⟩

/-- ASCII upper-casing, as `"GET"`/`"POST"` require. -/
def toUpperAscii (s : String) : String :=
  ⟨s.data.map Char.toUpper⟩

/-- Lexicographic (byte-value) order on lists of code points. -/
def charListLt : List Char → List Char → Bool
  | [], [] => false
  | [], _ :: _ => true
  | _ :: _, [] => false
  | c :: cs, d :: ds =>
      if c.toNat < d.toNat then true
      else if d.toNat < c.toNat then false
      else charListLt cs ds

/-- Lexicographic (byte-value) order on strings, as the spec's sort key. -/
def strLtBytes (a b : String) : Bool :=
  charListLt a.data b.data

/-- Insertion into a list of key/value pairs kept sorted by key. -/
def insertSorted (p : String × String) :
    List (String × String) → List (String × String)
  | [] => [p]
  | q :: qs => if strLtBytes p.1 q.1 then p :: q :: qs else q :: insertSorted p qs

/-- Sort parameters by key, lexicographically ascending. -/
def sortParams (ps : List (String × String)) : List (String × String) :=
  ps.foldr insertSorted []

/-- Join strings with `&` between them. -/
def joinAmp : List String → String
  | [] => ""
  | [x] => x
  | x :: xs => x ++ "&" ++ joinAmp xs

/-- Join percent-encoded `key=value` pairs with `&`. -/
def joinQuery (ps : List (String × String)) : String :=
  joinAmp (ps.map (fun p => percentEncode p.1 ++ "=" ++ percentEncode p.2))

/-- The reserved auth parameter keys a caller may not supply. -/
def reservedKeys : List String :=
  ["auth_key", "auth_timestamp", "auth_version", "auth_signature", "body_md5"]

/-- Modelled from the spec: the auth parameters injected into the caller's
params — `auth_key`, `auth_timestamp` (decimal seconds), `auth_version`
`"1.0"`, and `body_md5` of the body when one is present. -/
def injectAuth (t : Token) (md5 : String → String)
    (params : List (String × String)) (body : Option String)
    (timestamp : Nat) : List (String × String) :=
  params ++
    [("auth_key", t.key), ("auth_timestamp", natToDec timestamp),
     ("auth_version", "1.0")] ++
    (match body with
     | some b => [("body_md5", md5 b)]
     | none => [])

/-- The sorted, encoded query string `Q` (without `auth_signature`). -/
def canonicalQuery (t : Token) (md5 : String → String)
    (params : List (String × String)) (body : Option String)
    (timestamp : Nat) : String :=
  joinQuery (sortParams (injectAuth t md5 params body timestamp))

/-- The canonical message `METHOD\nPATH\nQ` that gets signed. -/
def signedMessage (method path q : String) : String :=
  toUpperAscii method ++ "\n" ++ path ++ "\n" ++ q

/-- Modelled from the spec: `requests.createSignedQueryString`
(`requests.ts` is absent from the corpus).  Rejects caller-supplied
reserved keys; injects the auth parameters; sorts all keys ascending;
percent-encodes and joins them into the query string `Q`; signs
`METHOD\nPATH\nQ` with the token's secret; returns the canonical message
together with the final query string `Q&auth_signature=signature`. -/
def createSignedQueryString (hmac : String → String → String)
    (md5 : String → String) (t : Token) (method path : String)
    (params : List (String × String)) (body : Option String)
    (timestamp : Nat) : Except String (String × String) :=
  if params.any (fun p => reservedKeys.contains p.1) then
    .error "auth parameters must not be supplied by the caller"
  else
    .ok (signedMessage method path (canonicalQuery t md5 params body timestamp),
      canonicalQuery t md5 params body timestamp ++ "&auth_signature=" ++
        t.sign hmac
          (signedMessage method path (canonicalQuery t md5 params body timestamp)))

/-! ### Claim theorems over the validators and the builder -/

/-- C5: the comparison `Token.verify` performs is the fixed-time
`secureCompare`, whose step count is exactly the maximum of the two input
lengths — independent of the position of a first differing byte, and with
no faster short-circuit on a length mismatch. -/
theorem verify_constant_time (hmac : String → String → String) (t : Token)
    (m s : String) :
    t.verify hmac m s = secureCompare (t.sign hmac m) s
    ∧ secureCompareSteps (t.sign hmac m) s =
        max (t.sign hmac m).data.length s.data.length :=
  ⟨rfl, by
    unfold secureCompareSteps
    rw [ctCompareAux_snd]
    simp⟩

/-- C6: with the example inputs and the timestamp fixed at 1111111111 the
builder signs exactly the canonical message — upper-case method, path and
the byte-sorted query string joined by single newlines — and the produced
`auth_signature` verifies against the same secret and message. -/
theorem signedQueryString_example (hmac : String → String → String)
    (md5 : String → String) :
    canonicalQuery ⟨"278d425bdf160c739803", "7ad3773142a6692b25b8"⟩ md5
        [("name", "foo")] none 1111111111 =
      "auth_key=278d425bdf160c739803&auth_timestamp=1111111111&auth_version=1.0&name=foo"
    ∧ createSignedQueryString hmac md5
        ⟨"278d425bdf160c739803", "7ad3773142a6692b25b8"⟩ "GET"
        "/apps/3/events" [("name", "foo")] none 1111111111 =
      .ok ("GET\n/apps/3/events\nauth_key=278d425bdf160c739803&auth_timestamp=1111111111&auth_version=1.0&name=foo",
        "auth_key=278d425bdf160c739803&auth_timestamp=1111111111&auth_version=1.0&name=foo&auth_signature="
          ++ Token.sign hmac ⟨"278d425bdf160c739803", "7ad3773142a6692b25b8"⟩
            "GET\n/apps/3/events\nauth_key=278d425bdf160c739803&auth_timestamp=1111111111&auth_version=1.0&name=foo")
    ∧ Token.verify hmac ⟨"278d425bdf160c739803", "7ad3773142a6692b25b8"⟩
        "GET\n/apps/3/events\nauth_key=278d425bdf160c739803&auth_timestamp=1111111111&auth_version=1.0&name=foo"
        (Token.sign hmac ⟨"278d425bdf160c739803", "7ad3773142a6692b25b8"⟩
          "GET\n/apps/3/events\nauth_key=278d425bdf160c739803&auth_timestamp=1111111111&auth_version=1.0&name=foo")
      = true := by
  have hq : canonicalQuery ⟨"278d425bdf160c739803", "7ad3773142a6692b25b8"⟩
      md5 [("name", "foo")] none 1111111111 =
      "auth_key=278d425bdf160c739803&auth_timestamp=1111111111&auth_version=1.0&name=foo" := by
    rfl
  have hmsg : signedMessage "GET" "/apps/3/events"
      "auth_key=278d425bdf160c739803&auth_timestamp=1111111111&auth_version=1.0&name=foo" =
      "GET\n/apps/3/events\nauth_key=278d425bdf160c739803&auth_timestamp=1111111111&auth_version=1.0&name=foo" := by
    rfl
  have happ : "auth_key=278d425bdf160c739803&auth_timestamp=1111111111&auth_version=1.0&name=foo"
      ++ "&auth_signature=" =
      "auth_key=278d425bdf160c739803&auth_timestamp=1111111111&auth_version=1.0&name=foo&auth_signature=" := by
    rfl
  refine ⟨hq, ?_, verify_sign_self hmac _ _⟩
  unfold createSignedQueryString
  rw [if_neg (by decide)]
  rw [hq, hmsg, happ]

/-! ### Regex and validator characterizations -/

/-- The spec-side reading of the regex `^\d+\.\d+$`: one or more digits,
a dot, one or more digits, spanning the whole string. -/
def SocketIdSpec (s : String) : Prop :=
  ∃ a b : List Char, s.data = a ++ '.' :: b ∧ a ≠ [] ∧ b ≠ [] ∧
    a.all Char.isDigit = true ∧ b.all Char.isDigit = true

/-- The spec-side channel conditions: non-empty, at most 200 characters,
all characters inside `[A-Za-z0-9_\-=@,.;]`. -/
def ChannelSpec (s : String) : Prop :=
  s ≠ "" ∧ jsLength s ≤ 200 ∧ s.data.all channelCharOk = true

theorem all_takeWhile_self {α : Type} (p : α → Bool) (l : List α) :
    (l.takeWhile p).all p = true := by
  induction l with
  | nil => rfl
  | cons c l ih =>
    rw [List.takeWhile_cons]
    cases hc : p c <;> simp [hc, ih]

theorem split_digits_dot (a bs : List Char) (ha : a.all Char.isDigit = true) :
    (a ++ '.' :: bs).takeWhile Char.isDigit = a ∧
    (a ++ '.' :: bs).dropWhile Char.isDigit = '.' :: bs := by
  induction a with
  | nil =>
    refine ⟨?_, ?_⟩ <;>
      simp [List.takeWhile_cons, List.dropWhile_cons,
        show Char.isDigit '.' = false from rfl]
  | cons c a ih =>
    simp only [List.all_cons, Bool.and_eq_true] at ha
    obtain ⟨ih1, ih2⟩ := ih ha.2
    refine ⟨?_, ?_⟩
    · simp [List.takeWhile_cons, ha.1, ih1]
    · simp [List.dropWhile_cons, ha.1, ih2]

theorem matchSocketId_iff (l : List Char) :
    matchSocketId l = true ↔
      ∃ a b : List Char, l = a ++ '.' :: b ∧ a ≠ [] ∧ b ≠ [] ∧
        a.all Char.isDigit = true ∧ b.all Char.isDigit = true := by
  constructor
  · intro h
    unfold matchSocketId at h
    cases hd : l.dropWhile Char.isDigit with
    | nil => rw [hd] at h; exact absurd h (by simp)
    | cons c rest =>
      rw [hd] at h
      rw [Bool.and_eq_true, Bool.and_eq_true, Bool.and_eq_true] at h
      obtain ⟨⟨⟨hc0, hne0⟩, hre0⟩, hall⟩ := h
      have hc : c = '.' := by simpa using hc0
      have hne : (l.takeWhile Char.isDigit).isEmpty = false := by
        simpa using hne0
      have hre : rest.isEmpty = false := by simpa using hre0
      refine ⟨l.takeWhile Char.isDigit, rest, ?_, ?_, ?_,
        all_takeWhile_self _ _, hall⟩
      · conv_lhs =>
          rw [← List.takeWhile_append_dropWhile (p := Char.isDigit) (l := l)]
        rw [hd, hc]
      · intro heq; rw [heq] at hne; simp at hne
      · intro heq; rw [heq] at hre; simp at hre
  · rintro ⟨a, b, rfl, ha, hb, hda, hdb⟩
    obtain ⟨ht, hdp⟩ := split_digits_dot a b hda
    unfold matchSocketId
    rw [hdp, ht]
    cases a with
    | nil => exact absurd rfl ha
    | cons x xs =>
      cases b with
      | nil => exact absurd rfl hb
      | cons y ys => simp [hdb]

theorem validateSocketId_ok_iff (s : String) :
    validateSocketId s = .ok () ↔ SocketIdSpec s := by
  unfold validateSocketId SocketIdSpec
  rw [← matchSocketId_iff]
  by_cases hm : matchSocketId s.data = true
  · have hne : s ≠ "" := by
      intro heq
      rw [heq] at hm
      exact absurd hm (by decide)
    have hb : (s == "") = false := by simpa using hne
    simp [hb, hm]
  · have hm2 : matchSocketId s.data = false := by simpa using hm
    simp [hm2]

theorem validateSocketId_error (s : String) (h : ¬ SocketIdSpec s) :
    validateSocketId s =
      .error ("Invalid socket id: \x27" ++ s ++ "\x27") := by
  have hm : matchSocketId s.data = false := by
    rw [← Bool.not_eq_true, matchSocketId_iff]
    exact h
  unfold validateSocketId
  rw [hm]
  simp

theorem any_not_eq_not_all {α : Type} (p : α → Bool) (l : List α) :
    (l.any fun c => !p c) = !l.all p := by
  induction l with
  | nil => rfl
  | cons c l ih => simp [ih]

theorem validateChannel_ok_iff (s : String) :
    validateChannel s = .ok () ↔ ChannelSpec s := by
  unfold validateChannel ChannelSpec
  rw [any_not_eq_not_all]
  by_cases h1 : s = ""
  · subst h1
    simp
  · have hb1 : (s == "") = false := by simpa using h1
    rw [hb1]
    cases hall : s.data.all channelCharOk with
    | false => simp [h1, hall]
    | true =>
      simp only [Bool.not_true, Bool.or_false]
      by_cases h2 : jsLength s > 200
      · rw [if_pos h2]
        constructor
        · intro h; exact absurd h (by simp)
        · rintro ⟨-, hlen, -⟩; omega
      · rw [if_neg h2]
        simp only [not_lt] at h2
        simp [h1, h2]

theorem validateChannel_error (s : String) (h : ¬ ChannelSpec s) :
    validateChannel s =
        .error ("Invalid channel name: \x27" ++ s ++ "\x27") ∨
    validateChannel s =
        .error ("Channel name too long: \x27" ++ s ++ "\x27") := by
  by_cases h1 : (s == "" || s.data.any fun c => !channelCharOk c) = true
  · left; unfold validateChannel; rw [if_pos h1]
  · by_cases h2 : jsLength s > 200
    · right; unfold validateChannel; rw [if_neg h1, if_pos h2]
    · exact absurd ((validateChannel_ok_iff s).mp
        (by unfold validateChannel; rw [if_neg h1, if_neg h2])) h

/-- C7: `authenticate` rejects, before any signing, every socket id not
matching `^\d+\.\d+$` with the invalid-socket-id error, and every
channel that is empty, longer than 200 characters or containing a
character outside `[A-Za-z0-9_\-=@,.;]` with an error naming the channel;
it succeeds exactly when both inputs satisfy the conditions. -/
theorem authenticate_validation (hmac : String → String → String) (t : Token)
    (socketId channel : String) (channelData : Option String) :
    ((∃ r, authenticate hmac t socketId channel channelData = .ok r) ↔
      (SocketIdSpec socketId ∧ ChannelSpec channel))
    ∧ (¬ SocketIdSpec socketId →
        authenticate hmac t socketId channel channelData =
          .error ("Invalid socket id: \x27" ++ socketId ++ "\x27"))
    ∧ (SocketIdSpec socketId → ¬ ChannelSpec channel →
        (authenticate hmac t socketId channel channelData =
            .error ("Invalid channel name: \x27" ++ channel ++ "\x27") ∨
          authenticate hmac t socketId channel channelData =
            .error ("Channel name too long: \x27" ++ channel ++ "\x27"))) := by
  refine ⟨⟨?_, ?_⟩, ?_, ?_⟩
  · rintro ⟨r, hr⟩
    unfold authenticate at hr
    cases hs : validateSocketId socketId with
    | error e => rw [hs] at hr; exact absurd hr (by simp)
    | ok u =>
      cases u
      rw [hs] at hr
      cases hc : validateChannel channel with
      | error e => rw [hc] at hr; exact absurd hr (by simp)
      | ok u2 =>
        cases u2
        exact ⟨(validateSocketId_ok_iff _).mp hs,
          (validateChannel_ok_iff _).mp hc⟩
  · rintro ⟨hs, hc⟩
    refine ⟨getSocketSignature hmac t channel socketId channelData, ?_⟩
    unfold authenticate
    rw [(validateSocketId_ok_iff _).mpr hs, (validateChannel_ok_iff _).mpr hc]
  · intro hns
    unfold authenticate
    rw [validateSocketId_error _ hns]
  · intro hs hnc
    unfold authenticate
    rw [(validateSocketId_ok_iff _).mpr hs]
    rcases validateChannel_error channel hnc with he | he <;> rw [he]
    · left; rfl
    · right; rfl

/-- C7 witness: a well-formed socket id and channel pass validation and
authentication succeeds. -/
theorem authenticate_validation_witness :
    ∃ r, authenticate (fun _ _ => "") ⟨"key", "secret"⟩ "123.45" "chan" none =
      .ok r :=
  (authenticate_validation (fun _ _ => "") ⟨"key", "secret"⟩ "123.45" "chan"
      none).1.mpr
    ⟨⟨['1', '2', '3'], ['4', '5'], by decide, by decide, by decide, by decide,
        by decide⟩,
      by decide, by decide, by decide⟩

theorem validateChannels_ok_iff (cs : List String) :
    validateChannels cs = .ok () ↔ ∀ c ∈ cs, ChannelSpec c := by
  induction cs with
  | nil => simp [validateChannels]
  | cons c cs ih =>
    unfold validateChannels
    cases hc : validateChannel c with
    | error e =>
      constructor
      · intro h; exact absurd h (by simp)
      · intro h
        have h2 := (validateChannel_ok_iff c).mpr (h c (by simp))
        rw [hc] at h2
        exact absurd h2 (by simp)
    | ok u =>
      cases u
      rw [ih]
      constructor
      · intro h c2 hc2
        rcases List.mem_cons.mp hc2 with rfl | hc2
        · exact (validateChannel_ok_iff c2).mp hc
        · exact h c2 hc2
      · intro h c2 hc2
        exact h c2 (List.mem_cons_of_mem _ hc2)

theorem sidCheckOf_ok_iff (socketId : Option String) :
    sidCheckOf socketId = .ok () ↔
      ∀ s, socketId = some s → s ≠ "" → SocketIdSpec s := by
  cases socketId with
  | none => simp [sidCheckOf]
  | some sid =>
    simp only [sidCheckOf]
    by_cases he : sid = ""
    · subst he
      simp
    · have hb : (sid == "") = false := by simpa using he
      rw [hb]
      simp only [Bool.false_eq_true, if_false]
      rw [validateSocketId_ok_iff]
      constructor
      · intro h s hs _
        injection hs with h2
        subst h2
        exact h
      · intro h
        exact h sid rfl he

/-- C8 (amended): `trigger` validates before dispatching: it reaches the
dispatch iff a supplied non-empty socket id matches `^\d+\.\d+$`, the
event name is at most 200 characters, there are at most 100 channels —
zero channels are accepted — and every channel passes channel validation;
with more than 100 channels and the earlier checks passing, it raises the
too-many-channels error. -/
theorem trigger_validation (channels : ChannelsArg) (event : String)
    (socketId : Option String) :
    (trigger channels event socketId = .ok () ↔
      ((∀ s, socketId = some s → s ≠ "" → SocketIdSpec s) ∧
        jsLength event ≤ 200 ∧ (normalizeChannels channels).length ≤ 100 ∧
        ∀ c ∈ normalizeChannels channels, ChannelSpec c))
    ∧ ((∀ s, socketId = some s → s ≠ "" → SocketIdSpec s) →
        jsLength event ≤ 200 → (normalizeChannels channels).length > 100 →
        trigger channels event socketId =
          .error "Can\x27t trigger a message to more than 100 channels") := by
  cases hchk : sidCheckOf socketId with
  | error e =>
    have hno : ¬ (∀ s, socketId = some s → s ≠ "" → SocketIdSpec s) := by
      intro hall
      rw [← sidCheckOf_ok_iff] at hall
      rw [hchk] at hall
      exact absurd hall (by simp)
    unfold trigger
    rw [hchk]
    refine ⟨⟨fun h => absurd h (by simp), ?_⟩, ?_⟩
    · rintro ⟨h1, -⟩; exact absurd h1 hno
    · intro h1; exact absurd h1 hno
  | ok u =>
    cases u
    have hyes := (sidCheckOf_ok_iff socketId).mp hchk
    unfold trigger
    rw [hchk]
    by_cases h2 : jsLength event > 200
    · rw [if_pos h2]
      refine ⟨⟨fun h => absurd h (by simp), ?_⟩, ?_⟩
      · rintro ⟨-, hlen, -⟩; omega
      · intro _ hlen _; omega
    · rw [if_neg h2]
      by_cases h3 : (normalizeChannels channels).length > 100
      · rw [if_pos h3]
        refine ⟨⟨fun h => absurd h (by simp), ?_⟩, fun _ _ _ => rfl⟩
        rintro ⟨-, -, hcnt, -⟩; omega
      · rw [if_neg h3]
        refine ⟨?_, fun _ _ h100 => absurd h100 h3⟩
        rw [validateChannels_ok_iff]
        constructor
        · intro h; exact ⟨hyes, by omega, by omega, h⟩
        · rintro ⟨-, -, -, h⟩; exact h

/-- C8 counterexample: validation accepts an empty channel list (zero
entries, refuting "the channel list must contain 1–100 entries"), and a
supplied empty-string socket id — which fails socket-id validation — is
silently skipped by the `if (socketId)` guard, so `trigger` still reaches
the dispatch. -/
theorem trigger_validation_cex :
    trigger (.list []) "event" none = .ok ()
    ∧ trigger (.list ["channel"]) "event" (some "") = .ok ()
    ∧ validateSocketId "" = .error "Invalid socket id: \x27\x27" :=
  ⟨rfl, rfl, rfl⟩

/-- C8 witness: one valid channel, a short event name and a well-formed
socket id pass all of `trigger`'s validation. -/
theorem trigger_validation_witness :
    trigger (.list ["presence-chan"]) "my-event" (some "1234.5678") =
      .ok () :=
  (trigger_validation (.list ["presence-chan"]) "my-event"
      (some "1234.5678")).1.mpr
    ⟨fun s hs _ => by
        injection hs with h
        subst h
        exact ⟨['1', '2', '3', '4'], ['5', '6', '7', '8'], by decide,
          by decide, by decide, by decide, by decide⟩,
      by decide, by decide,
      fun c hc => by
        rcases List.mem_singleton.mp hc with rfl
        exact ⟨by decide, by decide, by decide⟩⟩

end PusherSpec
